import Mathlib

/-!
Verification development for the repository summarization pipeline.

The Python source is embedded shallowly: strings are Lean `String`s (code
points, matching Python `str` length and comparison semantics), remote
responses become explicit structures, exceptions become `Option`/`Except`,
and the in-place `list.sort()` mutation is made explicit by returning the
post-call state of the caller's list where a claim depends on it.
-/

/-- Splitting a character list at every occurrence of a separator, the model of
Python `str.split(sep)` for a one-character separator: the result is always
nonempty, and splitting the empty string yields `[[]]` just as `''.split('/')`
yields `['']`. -/
def splitOnChar (sep : Char) : List Char → List (List Char)
  | [] => [[]]
  | c :: cs =>
    match splitOnChar sep cs with
    | [] => [[]]
    | seg :: rest => if c = sep then [] :: seg :: rest else (c :: seg) :: rest

/-- Model of Python `url.rstrip('/')`: remove every trailing `/`. -/
def rstripSlashes (cs : List Char) : List Char :=
  (cs.reverse.dropWhile (fun c => c = '/')).reverse

/-- Model of Python's substring test `needle in hay` on strings. -/
def hasInfix (needle : List Char) : List Char → Bool
  | [] => needle.isPrefixOf []
  | c :: rest => needle.isPrefixOf (c :: rest) || hasInfix needle rest

/-- Model of `parse_github_url` (src/services/github.py). The Python function
strips trailing slashes, splits on `/`, and when the whole split has at least
two parts and the string contains `github.com` returns the last two parts
(with a trailing `.git` removed from the last); otherwise it raises
`ValueError`, modelled as `none`. -/
def parse_github_url (url : String) : Option (String × String) :=
  let u := rstripSlashes url.data
  let parts := splitOnChar '/' u
  if 2 ≤ parts.length ∧ hasInfix ("github.com").data u = true then
    let owner := parts.dropLast.getLastD []
    let repo0 := parts.getLastD []
    let repo := if (".git").data.isSuffixOf repo0 then repo0.take (repo0.length - 4) else repo0
    some (String.mk owner, String.mk repo)
  else
    none

example : parse_github_url "https://github.com/tiangolo/fastapi" = some ("tiangolo", "fastapi") := by decide
example : parse_github_url "https://github.com/tiangolo/fastapi.git/" = some ("tiangolo", "fastapi") := by decide
example : parse_github_url "https://github.com" = some ("", "github.com") := by decide
example : parse_github_url "github.com" = none := by decide
example : parse_github_url "https://example.com/a/b" = none := by decide

/-! ## Path filtering (src/services/processor.py, `filter_paths`)

`filter_paths` delegates matching to the external `pathspec` dependency with
gitignore semantics. The `IGNORE_PATTERNS` literal of the source contains only
three pattern shapes, modelled here by the gitignore rules the spec names:
a `*.ext` pattern matches any path one of whose segments ends in `.ext`;
a bare file name matches any path one of whose segments equals it; a
trailing-`/` directory pattern matches any path having that name as a
non-final (directory) segment. -/

/-- The `*.ext` entries of `IGNORE_PATTERNS`, kept as their suffixes. -/
def IGNORE_EXT_PATTERNS : List String :=
  [".png", ".jpg", ".jpeg", ".gif", ".ico", ".pdf", ".eot", ".svg", ".ttf", ".woff", ".woff2",
   ".mp4", ".webm", ".mp3", ".wav", ".zip", ".tar", ".gz", ".7z", ".exe", ".dll", ".so", ".dylib",
   ".pyc", ".iml"]

/-- The trailing-`/` directory entries of `IGNORE_PATTERNS`. -/
def IGNORE_DIR_PATTERNS : List String :=
  ["node_modules", "venv", ".venv", "env", "build", "dist", "target", "out", "__pycache__",
   ".next", ".nuxt", ".cache", ".git", ".github", ".vscode", ".idea"]

/-- The exact-file-name entries of `IGNORE_PATTERNS`. -/
def IGNORE_FILE_PATTERNS : List String :=
  [".env", "package-lock.json", "yarn.lock", "pnpm-lock.yaml", "poetry.lock", "Pipfile.lock",
   "Gemfile.lock", "Cargo.lock", "__init__.py"]

/-- Model of `pathspec`'s `spec.match_file(path)` for the patterns of
`IGNORE_PATTERNS`, per gitignore semantics. -/
def matchesIgnore (p : String) : Bool :=
  let segs := splitOnChar '/' p.data
  segs.any (fun s => IGNORE_EXT_PATTERNS.any (fun e => e.data.isSuffixOf s)) ||
  segs.any (fun s => IGNORE_FILE_PATTERNS.any (fun n => s == n.data)) ||
  segs.dropLast.any (fun s => IGNORE_DIR_PATTERNS.any (fun n => s == n.data))

/-- Model of `filter_paths`: keep exactly the paths matching no ignore rule,
in their input order. -/
def filter_paths (paths : List String) : List String :=
  paths.filter (fun p => !matchesIgnore p)

example :
    filter_paths ["README.md", "node_modules/x.js", "package-lock.json", "src/main.py", "logo.png"]
      = ["README.md", "src/main.py"] := by decide

/-! ## Lexicographic path order (model of Python `list.sort()` on strings) -/

/-- Code-point lexicographic `≤` on character lists, the comparison Python's
`list.sort()` applies to `str` elements. -/
def lexLe : List Char → List Char → Bool
  | [], _ => true
  | _ :: _, [] => false
  | a :: as, b :: bs => if a < b then true else if b < a then false else lexLe as bs

/-- The sort order on paths used by `paths.sort()`. -/
def pathLe (a b : String) : Prop := lexLe a.data b.data = true

instance : DecidableRel pathLe :=
  fun a b => (inferInstance : Decidable (lexLe a.data b.data = true))

theorem lexLe_cons_iff (x y : Char) (xs ys : List Char) :
    lexLe (x :: xs) (y :: ys) = true ↔ x < y ∨ (x = y ∧ lexLe xs ys = true) := by
  simp only [lexLe]
  rcases lt_trichotomy x y with h | h | h
  · simp [h]
  · subst h; simp [lt_irrefl]
  · simp [lt_asymm h, h, ne_of_gt h]

theorem lexLe_total (a b : List Char) : lexLe a b = true ∨ lexLe b a = true := by
  induction a generalizing b with
  | nil => left; rfl
  | cons x xs ih =>
    cases b with
    | nil => right; rfl
    | cons y ys =>
      rcases lt_trichotomy x y with h | h | h
      · left; rw [lexLe_cons_iff]; exact Or.inl h
      · subst h
        rcases ih ys with h' | h'
        · left; rw [lexLe_cons_iff]; exact Or.inr ⟨rfl, h'⟩
        · right; rw [lexLe_cons_iff]; exact Or.inr ⟨rfl, h'⟩
      · right; rw [lexLe_cons_iff]; exact Or.inl h

theorem lexLe_trans {a b c : List Char} (hab : lexLe a b = true) (hbc : lexLe b c = true) :
    lexLe a c = true := by
  induction a generalizing b c with
  | nil => rfl
  | cons x xs ih =>
    cases b with
    | nil => simp [lexLe] at hab
    | cons y ys =>
      cases c with
      | nil => simp [lexLe] at hbc
      | cons z zs =>
        rw [lexLe_cons_iff] at hab hbc ⊢
        rcases hab with hxy | ⟨hxy, hab'⟩
        · rcases hbc with hyz | ⟨hyz, _⟩
          · exact Or.inl (lt_trans hxy hyz)
          · subst hyz; exact Or.inl hxy
        · subst hxy
          rcases hbc with hyz | ⟨hyz, hbc'⟩
          · exact Or.inl hyz
          · subst hyz; exact Or.inr ⟨rfl, ih hab' hbc'⟩

theorem lexLe_antisymm {a b : List Char} (hab : lexLe a b = true) (hba : lexLe b a = true) :
    a = b := by
  induction a generalizing b with
  | nil =>
    cases b with
    | nil => rfl
    | cons y ys => simp [lexLe] at hba
  | cons x xs ih =>
    cases b with
    | nil => simp [lexLe] at hab
    | cons y ys =>
      rw [lexLe_cons_iff] at hab hba
      rcases hab with hxy | ⟨hxy, hab'⟩
      · rcases hba with hyx | ⟨hyx, _⟩
        · exact absurd hyx (lt_asymm hxy)
        · exact absurd hyx.symm (ne_of_lt hxy)
      · subst hxy
        rcases hba with hyx | ⟨_, hba'⟩
        · exact absurd hyx (lt_irrefl x)
        · rw [ih hab' hba']

instance : IsTotal String pathLe :=
  ⟨fun a b => lexLe_total a.data b.data⟩

instance : IsTrans String pathLe :=
  ⟨fun _ _ _ hab hbc => lexLe_trans hab hbc⟩

instance : IsAntisymm String pathLe :=
  ⟨fun a b hab hba => by
    cases a; cases b
    exact congrArg String.mk (lexLe_antisymm hab hba)⟩

/-- The model of `paths.sort()`: since equal strings are interchangeable, the
sorted permutation of a string list is unique, so any sorting algorithm gives
exactly CPython's result; insertion sort is used here. -/
def sortPaths (paths : List String) : List String :=
  List.insertionSort pathLe paths

theorem sortPaths_sorted (paths : List String) : List.Sorted pathLe (sortPaths paths) :=
  List.sorted_insertionSort pathLe paths

theorem sortPaths_perm (paths : List String) : (sortPaths paths).Perm paths :=
  List.perm_insertionSort pathLe paths

/-- Sorting is a function of the input's multiset of elements alone. -/
theorem sortPaths_congr {l₁ l₂ : List String} (h : l₁.Perm l₂) :
    sortPaths l₁ = sortPaths l₂ :=
  List.eq_of_perm_of_sorted
    (((sortPaths_perm l₁).trans h).trans (sortPaths_perm l₂).symm)
    (sortPaths_sorted l₁) (sortPaths_sorted l₂)

example : sortPaths ["b.py", "a.py", "src/x.py"] = ["a.py", "b.py", "src/x.py"] := by decide

/-! ## File prioritization (src/services/processor.py, `prioritize_files`) -/

/-- The `key_files` literal of `prioritize_files` (category 1). -/
def key_files : List String :=
  ["README.md", "README", "package.json", "pyproject.toml", "requirements.txt", "Dockerfile",
   "docker-compose.yml", "setup.py", "go.mod", "Cargo.toml"]

/-- The `core_names` literal of `prioritize_files` (category 2). -/
def core_names : List String :=
  ["main.py", "app.py", "index.js", "index.ts", "app.js", "app.ts", "main.go", "main.rs"]

/-- The `source_exts` literal of `prioritize_files` (category 3). -/
def source_exts : List String :=
  [".py", ".js", ".ts", ".go", ".rs", ".java", ".cpp", ".c", ".h", ".cs", ".rb", ".php"]

/-- Python `path.split('/')[-1]`, the final path segment. -/
def fileNameOf (p : String) : List Char :=
  (splitOnChar '/' p.data).getLastD []

/-- Lower-casing a character list, the model of Python `str.lower()` for the
ASCII file names compared here. -/
def lowerChars (cs : List Char) : List Char :=
  cs.map Char.toLower

/-- The category-1 test of `prioritize_files`:
`filename in key_files or "readme" in filename.lower()`. -/
def isKeyFile (p : String) : Bool :=
  key_files.any (fun k => fileNameOf p == k.data) ||
  hasInfix ("readme").data (lowerChars (fileNameOf p))

/-- The category-2 test of `prioritize_files`:
`filename in core_names and depth <= 3`. -/
def isCoreEntry (p : String) : Bool :=
  core_names.any (fun k => fileNameOf p == k.data) &&
  decide ((splitOnChar '/' p.data).length ≤ 3)

/-- The category-3 test of `prioritize_files`:
`any(path.endswith(ext) for ext in source_exts)`. -/
def isSourceFile (p : String) : Bool :=
  source_exts.any (fun e => e.data.isSuffixOf p.data)

/-- One selection loop of `prioritize_files` (categories 1 and 2): scan the
sorted paths in order and append each one passing `pred` that is not already
selected. -/
def selectPass (pred : String → Bool) : List String → List String → List String
  | acc, [] => acc
  | acc, p :: ps => selectPass pred (if pred p && !(acc.contains p) then acc ++ [p] else acc) ps

/-- The category-3 loop of `prioritize_files`: same scan as `selectPass` with
`isSourceFile`, but stopping as soon as the selection reaches `max_files`. -/
def fillPass (max_files : Nat) : List String → List String → List String
  | acc, [] => acc
  | acc, p :: ps =>
    if max_files ≤ acc.length then acc
    else fillPass max_files (if isSourceFile p && !(acc.contains p) then acc ++ [p] else acc) ps

/-- Model of the value returned by `prioritize_files`: sort, run the three
category loops on the sorted list, truncate to `max_files`. -/
def prioritize_files (paths : List String) (max_files : Nat) : List String :=
  let sorted := sortPaths paths
  (fillPass max_files (selectPass isCoreEntry (selectPass isKeyFile [] sorted) sorted) sorted).take
    max_files

/-- Model of `prioritize_files` together with its side effect: `paths.sort()`
mutates the caller-owned list in place, so the call leaves the caller's list
equal to the sorted sequence. The first component is the caller's list after
the call, the second the returned selection. -/
def prioritize_files_state (paths : List String) (max_files : Nat) :
    List String × List String :=
  (sortPaths paths, prioritize_files paths max_files)

example :
    prioritize_files ["README.md", "src/main.py"] 10 = ["README.md", "src/main.py"] := by decide
example : prioritize_files ["docs/guide.rst", "notes.txt"] 5 = [] := by decide
example :
    prioritize_files ["z.py", "a.py", "b.py", "c.py"] 2 = ["a.py", "b.py"] := by decide
example :
    prioritize_files ["src/utils/helpers.py", "README.md"] 10
      = ["README.md", "src/utils/helpers.py"] := by decide

/-! ## Tree fetching (src/services/github.py, `get_repo_tree`) -/

/-- One entry of the remote tree listing: the fields the pipeline reads. -/
structure TreeEntry where
  path : String
  type : String
deriving DecidableEq

/-- The remote tree response as `get_repo_tree` inspects it: the HTTP status,
the optional `tree` field (`none` models `"tree" not in data`), and the
`truncated` flag (`data.get("truncated")`, a missing field being falsy). -/
structure TreeResponse where
  status : Nat
  tree? : Option (List TreeEntry)
  truncated : Bool
deriving DecidableEq

/-- Model of `get_repo_tree` applied to a received response; raising
`GitHubClientError` becomes `Except.error` with the source's message. -/
def get_repo_tree (resp : TreeResponse) : Except String (List TreeEntry) :=
  if resp.status ≠ 200 then Except.error "Failed to fetch repo tree: non-200 response"
  else
    match resp.tree? with
    | some t => Except.ok t
    | none =>
      if resp.truncated then Except.error "Repository tree is too large (truncated)."
      else Except.error "Invalid tree response from GitHub."

/-! ## Raw content fetching and context assembly
(src/services/github.py `get_raw_file_content`; src/services/orchestrator.py
`process_github_repo`, step 4) -/

/-- A raw-content response: HTTP status and text body. -/
structure RawResponse where
  status : Nat
  text : String

/-- Model of `get_raw_file_content` applied to a received response: any
non-200 status yields the empty string instead of an error. -/
def get_raw_file_content (resp : RawResponse) : String :=
  if resp.status ≠ 200 then "" else resp.text

/-- Model of Python's `if content.strip():` guard — true exactly when the
string holds some non-whitespace character. -/
def hasContent (s : String) : Bool :=
  s.data.any (fun c => !c.isWhitespace)

/-- The per-file block the orchestrator appends:
`f"\n\n--- FILE: {path} ---\n{content}\n"`. -/
def fileBlock (path content : String) : String :=
  "\n\n--- FILE: " ++ path ++ " ---\n" ++ content ++ "\n"

/-- The orchestrator's assembly loop over `zip(priority_paths, contents)`:
append a block for every pair whose content passes the `strip()` guard. -/
def buildContext : List (String × String) → String → String
  | [], acc => acc
  | (p, c) :: rest, acc =>
    buildContext rest (if hasContent c then acc ++ fileBlock p c else acc)

/-- Steps 4 of `process_github_repo` after prioritization: fetch every
prioritized path (`fetch` gives each path's remote response, one independent
request per path) and assemble the context string, pairing each content with
its originating path by input order. -/
def assembleContext (paths : List String) (fetch : String → RawResponse) : String :=
  buildContext (paths.zip (paths.map (fun p => get_raw_file_content (fetch p)))) ""

/-! ## Content-size bounding (src/services/llm.py, `generate_summary`) -/

/-- The `max_chars` literal of `generate_summary`. -/
def max_chars : Nat := 300000

/-- The marker `generate_summary` appends after cutting an oversized blob. -/
def truncation_marker : List Char :=
  ("\n...[CONTENT TRUNCATED]...").data

/-- The context-bounding step of `generate_summary`: contents longer than
`max_chars` characters are cut to `max_chars` and the marker is appended;
anything else passes through unchanged. Content is a character list, matching
Python's code-point `len` and slicing. -/
def truncate_contents (c : List Char) : List Char :=
  if c.length > max_chars then c.take max_chars ++ truncation_marker else c

example : get_repo_tree ⟨200, some [⟨"a.py", "blob"⟩], true⟩ = Except.ok [⟨"a.py", "blob"⟩] :=
  rfl
example : get_raw_file_content ⟨404, "irrelevant"⟩ = "" := by decide
example : assembleContext ["a"] (fun _ => ⟨200, "hi"⟩) = "\n\n--- FILE: a ---\nhi\n" := by decide
example : assembleContext ["a"] (fun _ => ⟨500, "hi"⟩) = "" := by decide
example : truncate_contents ['x'] = ['x'] := by decide

/-! ## Structural lemmas about the prioritizer's selection loops -/

theorem selectPass_eq_append (pred : String → Bool) (l : List String) :
    ∀ acc, ∃ t, selectPass pred acc l = acc ++ t := by
  induction l with
  | nil => intro acc; exact ⟨[], by simp [selectPass]⟩
  | cons p ps ih =>
    intro acc
    by_cases h : (pred p && !(acc.contains p)) = true
    · obtain ⟨t, ht⟩ := ih (acc ++ [p])
      refine ⟨p :: t, ?_⟩
      rw [selectPass, if_pos h, ht, List.append_assoc]
      rfl
    · obtain ⟨t, ht⟩ := ih acc
      exact ⟨t, by rw [selectPass, if_neg h, ht]⟩

theorem selectPass_mem {pred : String → Bool} {x : String} :
    ∀ {l acc : List String}, x ∈ selectPass pred acc l →
      x ∈ acc ∨ (pred x = true ∧ x ∈ l) := by
  intro l
  induction l with
  | nil => intro acc hx; exact Or.inl (by simpa [selectPass] using hx)
  | cons p ps ih =>
    intro acc hx
    rw [selectPass] at hx
    rcases ih hx with hacc | ⟨hpx, hps⟩
    · by_cases h : (pred p && !(acc.contains p)) = true
      · rw [if_pos h] at hacc
        rcases List.mem_append.mp hacc with h' | h'
        · exact Or.inl h'
        · have hxp : x = p := List.mem_singleton.mp h'
          subst hxp
          exact Or.inr ⟨(Bool.and_eq_true_iff.mp h).1, List.mem_cons_self x ps⟩
      · rw [if_neg h] at hacc
        exact Or.inl hacc
    · exact Or.inr ⟨hpx, List.mem_cons_of_mem p hps⟩

theorem selectPass_mem_of_acc {pred : String → Bool} {x : String} {acc : List String}
    (l : List String) (h : x ∈ acc) : x ∈ selectPass pred acc l := by
  obtain ⟨t, ht⟩ := selectPass_eq_append pred l acc
  rw [ht]
  exact List.mem_append_left t h

theorem selectPass_complete {pred : String → Bool} {x : String} :
    ∀ {l : List String} (acc : List String), x ∈ l → pred x = true →
      x ∈ selectPass pred acc l := by
  intro l
  induction l with
  | nil => intro _ hx; exact absurd hx (List.not_mem_nil x)
  | cons p ps ih =>
    intro acc hx hpx
    rw [selectPass]
    rcases List.mem_cons.mp hx with hxp | hxps
    · subst hxp
      by_cases hc : acc.contains x = true
      · have hmem : x ∈ acc := by simpa [List.contains, List.elem_iff] using hc
        apply selectPass_mem_of_acc ps
        by_cases h : (pred x && !(acc.contains x)) = true
        · rw [if_pos h]; exact List.mem_append_left _ hmem
        · rw [if_neg h]; exact hmem
      · have h : (pred x && !(acc.contains x)) = true := by
          rw [Bool.and_eq_true_iff]
          refine ⟨hpx, ?_⟩
          rw [Bool.eq_false_iff.mpr hc]
          rfl
        rw [if_pos h]
        exact selectPass_mem_of_acc ps (List.mem_append_right acc (List.mem_singleton_self x))
    · exact ih _ hxps hpx

theorem selectPass_nodup {pred : String → Bool} :
    ∀ {l acc : List String}, acc.Nodup → (selectPass pred acc l).Nodup := by
  intro l
  induction l with
  | nil => intro acc h; simpa [selectPass] using h
  | cons p ps ih =>
    intro acc h
    rw [selectPass]
    by_cases hc : (pred p && !(acc.contains p)) = true
    · rw [if_pos hc]
      refine ih ?_
      have hnp : p ∉ acc := by
        have h2 := (Bool.and_eq_true_iff.mp hc).2
        simpa [List.contains, List.elem_iff] using h2
      simp [List.nodup_append, h, hnp]
    · rw [if_neg hc]
      exact ih h

theorem fillPass_eq_append (m : Nat) (l : List String) :
    ∀ acc, ∃ t, fillPass m acc l = acc ++ t := by
  induction l with
  | nil => intro acc; exact ⟨[], by simp [fillPass]⟩
  | cons p ps ih =>
    intro acc
    by_cases hb : m ≤ acc.length
    · exact ⟨[], by simp [fillPass, hb]⟩
    · by_cases h : (isSourceFile p && !(acc.contains p)) = true
      · obtain ⟨t, ht⟩ := ih (acc ++ [p])
        refine ⟨p :: t, ?_⟩
        rw [fillPass, if_neg hb, if_pos h, ht, List.append_assoc]
        rfl
      · obtain ⟨t, ht⟩ := ih acc
        exact ⟨t, by rw [fillPass, if_neg hb, if_neg h, ht]⟩

theorem fillPass_mem {m : Nat} {x : String} :
    ∀ {l acc : List String}, x ∈ fillPass m acc l →
      x ∈ acc ∨ (isSourceFile x = true ∧ x ∈ l) := by
  intro l
  induction l with
  | nil => intro acc hx; exact Or.inl (by simpa [fillPass] using hx)
  | cons p ps ih =>
    intro acc hx
    rw [fillPass] at hx
    by_cases hb : m ≤ acc.length
    · rw [if_pos hb] at hx
      exact Or.inl hx
    · rw [if_neg hb] at hx
      rcases ih hx with hacc | ⟨hpx, hps⟩
      · by_cases h : (isSourceFile p && !(acc.contains p)) = true
        · rw [if_pos h] at hacc
          rcases List.mem_append.mp hacc with h' | h'
          · exact Or.inl h'
          · have hxp : x = p := List.mem_singleton.mp h'
            subst hxp
            exact Or.inr ⟨(Bool.and_eq_true_iff.mp h).1, List.mem_cons_self x ps⟩
        · rw [if_neg h] at hacc
          exact Or.inl hacc
      · exact Or.inr ⟨hpx, List.mem_cons_of_mem p hps⟩

theorem fillPass_nodup {m : Nat} :
    ∀ {l acc : List String}, acc.Nodup → (fillPass m acc l).Nodup := by
  intro l
  induction l with
  | nil => intro acc h; simpa [fillPass] using h
  | cons p ps ih =>
    intro acc h
    rw [fillPass]
    by_cases hb : m ≤ acc.length
    · rw [if_pos hb]; exact h
    · rw [if_neg hb]
      by_cases hc : (isSourceFile p && !(acc.contains p)) = true
      · rw [if_pos hc]
        refine ih ?_
        have hnp : p ∉ acc := by
          have h2 := (Bool.and_eq_true_iff.mp hc).2
          simpa [List.contains, List.elem_iff] using h2
        simp [List.nodup_append, h, hnp]
      · rw [if_neg hc]
        exact ih h

/-! ## Claim theorems -/

/-- C1 counterexample: the input `https://github.com` has no `/`-delimited
path segments after the host marker at all, yet `parse_github_url` returns
the pair `("", "github.com")` (the scheme split supplies the two parts)
instead of failing with `ValueError`. -/
theorem claim_C1_counterexample :
    parse_github_url "https://github.com" = some ("", "github.com") := by decide

/-- C1 (amended): the parser fails with `InvalidReference` (`ValueError`,
modelled as `none`) whenever the trailing-slash-stripped input splits into
fewer than two `/`-delimited parts in total or lacks the `github.com`
substring; the segment count the parser enforces is over the whole split
(scheme parts included), not over the segments after the host marker, so an
input containing the marker with at least two total parts returns a pair even
when no owner/repository segments follow the marker. -/
theorem claim_C1_amended :
    (∀ url : String,
        ((splitOnChar '/' (rstripSlashes url.data)).length < 2 ∨
          hasInfix ("github.com").data (rstripSlashes url.data) = false) →
        parse_github_url url = none) ∧
    parse_github_url "https://github.com" ≠ none := by
  constructor
  · intro url h
    simp only [parse_github_url]
    rw [if_neg]
    rintro ⟨h1, h2⟩
    rcases h with h | h
    · exact absurd h1 (not_le_of_lt h)
    · rw [h] at h2
      exact Bool.false_ne_true h2
  · decide

/-- C1 witness: a marker-less single-part input is rejected. -/
theorem claim_C1_witness : parse_github_url "github.com" = none :=
  claim_C1_amended.1 "github.com" (Or.inl (by decide))

/-- C2 counterexample: a successful response that is marked truncated but
still carries the listing field is returned as a tree, not rejected — the
truncated flag alone is not sufficient for failure. -/
theorem claim_C2_counterexample :
    get_repo_tree ⟨200, some [⟨"README.md", "blob"⟩], true⟩
      = Except.ok [⟨"README.md", "blob"⟩] := rfl

/-- C2 (amended): for a successful response, `get_repo_tree` fails only when
the listing field is absent: when the listing field is present the listing is
returned regardless of the truncated flag, and when it is absent the
truncated flag selects the truncation error. -/
theorem claim_C2_amended :
    (∀ (resp : TreeResponse) (t : List TreeEntry), resp.status = 200 →
        resp.tree? = some t → get_repo_tree resp = Except.ok t) ∧
    (∀ resp : TreeResponse, resp.status = 200 → resp.tree? = none →
        resp.truncated = true →
        get_repo_tree resp = Except.error "Repository tree is too large (truncated).") := by
  constructor
  · intro resp t hs ht
    simp [get_repo_tree, hs, ht]
  · intro resp hs ht htr
    simp [get_repo_tree, hs, ht, htr]

/-- C2 witness: both amended branches at concrete responses. -/
theorem claim_C2_witness :
    get_repo_tree ⟨200, some [], true⟩ = Except.ok [] ∧
    get_repo_tree ⟨200, none, true⟩
      = Except.error "Repository tree is too large (truncated)." :=
  ⟨claim_C2_amended.1 ⟨200, some [], true⟩ [] rfl rfl,
   claim_C2_amended.2 ⟨200, none, true⟩ rfl rfl rfl⟩

/-- C6: the content blob handed to the summarizer is truncated to exactly the
300000-character ceiling with the truncation marker appended when it exceeds
the ceiling, its final length never exceeds ceiling plus marker length, and a
blob within the ceiling passes through unchanged. -/
theorem claim_C6_truncation (c : List Char) :
    (max_chars < c.length →
      truncate_contents c = c.take max_chars ++ truncation_marker ∧
      (truncate_contents c).length = max_chars + truncation_marker.length) ∧
    (truncate_contents c).length ≤ max_chars + truncation_marker.length ∧
    (c.length ≤ max_chars → truncate_contents c = c) := by
  refine ⟨fun h => ?_, ?_, fun h => ?_⟩
  · have heq : truncate_contents c = c.take max_chars ++ truncation_marker := by
      simp [truncate_contents, h]
    refine ⟨heq, ?_⟩
    rw [heq, List.length_append, List.length_take, min_eq_left (le_of_lt h)]
  · by_cases h : max_chars < c.length
    · have heq : truncate_contents c = c.take max_chars ++ truncation_marker := by
        simp [truncate_contents, h]
      rw [heq, List.length_append, List.length_take, min_eq_left (le_of_lt h)]
    · have heq : truncate_contents c = c := by simp [truncate_contents, h]
      rw [heq]
      exact le_trans (not_lt.mp h) (Nat.le_add_right _ _)
  · have hnot : ¬(max_chars < c.length) := not_lt.mpr h
    simp [truncate_contents, hnot]

/-- C6 witness: a blob one character over the ceiling is cut to the ceiling
and marked. -/
theorem claim_C6_witness :
    truncate_contents (List.replicate (max_chars + 1) 'a')
        = (List.replicate (max_chars + 1) 'a').take max_chars ++ truncation_marker ∧
    (truncate_contents (List.replicate (max_chars + 1) 'a')).length
        = max_chars + truncation_marker.length :=
  (claim_C6_truncation _).1 (by simp)

/-- The assembled context ignores exactly the paths whose fetch failed: the
orchestrator loop over the full path list equals the loop over the successful
paths alone, every path staying paired with its own fetched content. -/
theorem buildContext_filter_failed (fetch : String → RawResponse) :
    ∀ (paths : List String) (acc : String),
      buildContext (paths.zip (paths.map (fun p => get_raw_file_content (fetch p)))) acc
        = buildContext ((paths.filter (fun p => (fetch p).status == 200)).zip
            ((paths.filter (fun p => (fetch p).status == 200)).map
              (fun p => get_raw_file_content (fetch p)))) acc := by
  intro paths
  induction paths with
  | nil => intro acc; rfl
  | cons p ps ih =>
    intro acc
    by_cases h : (fetch p).status = 200
    · have hb : ((fetch p).status == 200) = true := by simp [h]
      simp only [List.map_cons, List.zip_cons_cons, List.filter_cons, hb, if_pos,
        buildContext]
      exact ih _
    · have hb : ((fetch p).status == 200) = false := by simp [h]
      have hraw : get_raw_file_content (fetch p) = "" := by
        simp [get_raw_file_content, h]
      simp only [List.map_cons, List.zip_cons_cons, List.filter_cons, hb,
        Bool.false_eq_true, if_false, buildContext, hraw]
      have hnc : hasContent "" = false := rfl
      rw [hnc]
      simp only [Bool.false_eq_true, if_false]
      exact ih _

/-- C7: a non-success raw-content response yields the empty string rather than
an error, and such a per-file failure never changes the assembled context
(the pipeline proceeds with the remaining successful fetches, each result
paired with its originating path in input order). -/
theorem claim_C7_partial_failure :
    (∀ resp : RawResponse, resp.status ≠ 200 → get_raw_file_content resp = "") ∧
    (∀ (paths : List String) (fetch : String → RawResponse),
        assembleContext paths fetch
          = assembleContext (paths.filter (fun p => (fetch p).status == 200)) fetch) := by
  constructor
  · intro resp h
    simp [get_raw_file_content, h]
  · intro paths fetch
    exact buildContext_filter_failed fetch paths ""

/-- C7 witness: a concrete 404 fetch yields the empty string, and a batch with
one failure assembles the same context as its successful remainder. -/
theorem claim_C7_witness :
    get_raw_file_content ⟨404, "not found page"⟩ = "" ∧
    assembleContext ["a.py", "b.py"]
        (fun p => if p == "a.py" then ⟨500, "boom"⟩ else ⟨200, "content"⟩)
      = assembleContext
          ((["a.py", "b.py"]).filter
            (fun p => ((if p == "a.py" then (⟨500, "boom"⟩ : RawResponse)
                        else ⟨200, "content"⟩).status == 200)))
          (fun p => if p == "a.py" then ⟨500, "boom"⟩ else ⟨200, "content"⟩) :=
  ⟨claim_C7_partial_failure.1 ⟨404, "not found page"⟩ (by decide),
   claim_C7_partial_failure.2 ["a.py", "b.py"] _⟩

/-- C8: `filter_paths` is idempotent — filtering an already-filtered list
returns it unchanged — and its output is a sublist of its input, preserving
the relative order of the retained paths. -/
theorem claim_C8_idempotent (paths : List String) :
    filter_paths (filter_paths paths) = filter_paths paths ∧
    (filter_paths paths).Sublist paths := by
  refine ⟨?_, List.filter_sublist paths⟩
  simp [filter_paths, List.filter_filter]

/-- C3: the prioritizer's output depends only on the multiset of input paths —
any two orderings of the same paths produce the identical output sequence. -/
theorem claim_C3_determinism (l₁ l₂ : List String) (m : Nat) (h : l₁.Perm l₂) :
    prioritize_files l₁ m = prioritize_files l₂ m := by
  simp only [prioritize_files, sortPaths_congr h]

/-- C3 witness: two orderings of the same two paths select identically. -/
theorem claim_C3_witness :
    prioritize_files ["b.py", "a.py"] 5 = prioritize_files ["a.py", "b.py"] 5 :=
  claim_C3_determinism _ _ 5 (List.Perm.swap "a.py" "b.py" [])

/-- C4: the prioritizer returns at most `max_files` entries and never
duplicates a path. -/
theorem claim_C4_bound_nodup (paths : List String) (m : Nat) :
    (prioritize_files paths m).length ≤ m ∧ (prioritize_files paths m).Nodup := by
  constructor
  · simp only [prioritize_files]
    exact List.length_take_le m _
  · simp only [prioritize_files]
    exact List.Nodup.sublist (List.take_sublist m _)
      (fillPass_nodup (selectPass_nodup (selectPass_nodup List.nodup_nil)))

/-- Tier-ordering core: in the list built by the three selection loops over a
common scanned list and then truncated, every tier-1 path (category-1 match)
sits strictly before every path that matches neither category 1 nor
category 2 (hence was appended by the category-3 loop). -/
theorem tier_order_core (s : List String) (m : Nat) (p q : String)
    (hkp : isKeyFile p = true) (hkq : isKeyFile q = false) (hcq : isCoreEntry q = false)
    (hp : p ∈ (fillPass m (selectPass isCoreEntry (selectPass isKeyFile [] s) s) s).take m)
    (hq : q ∈ (fillPass m (selectPass isCoreEntry (selectPass isKeyFile [] s) s) s).take m) :
    List.indexOf p ((fillPass m (selectPass isCoreEntry (selectPass isKeyFile [] s) s) s).take m)
      < List.indexOf q
          ((fillPass m (selectPass isCoreEntry (selectPass isKeyFile [] s) s) s).take m) := by
  set A1 := selectPass isKeyFile [] s with hA1
  set A2 := selectPass isCoreEntry A1 s with hA2
  set A3 := fillPass m A2 s with hA3
  have hpA3 : p ∈ A3 := List.take_subset m A3 hp
  have hqA3 : q ∈ A3 := List.take_subset m A3 hq
  have hqA1 : q ∉ A1 := by
    intro hmem
    rcases selectPass_mem hmem with h0 | ⟨hk, _⟩
    · exact List.not_mem_nil q h0
    · rw [hkq] at hk
      exact Bool.false_ne_true hk
  have hqA2 : q ∉ A2 := by
    intro hmem
    rcases selectPass_mem hmem with h1 | ⟨hc, _⟩
    · exact hqA1 h1
    · rw [hcq] at hc
      exact Bool.false_ne_true hc
  have hps : p ∈ s := by
    rcases fillPass_mem hpA3 with h2 | ⟨_, h⟩
    · rcases selectPass_mem h2 with h1 | ⟨_, h⟩
      · rcases selectPass_mem h1 with h0 | ⟨_, h⟩
        · exact absurd h0 (List.not_mem_nil p)
        · exact h
      · exact h
    · exact h
  have hpA1 : p ∈ A1 := selectPass_complete [] hps hkp
  have hpA2 : p ∈ A2 := selectPass_mem_of_acc s hpA1
  obtain ⟨t3, ht3⟩ := fillPass_eq_append m s A2
  rw [← hA3] at ht3
  have hidxp : List.indexOf p A3 < A2.length := by
    rw [ht3, List.indexOf_append_of_mem hpA2]
    exact List.indexOf_lt_length.mpr hpA2
  have hidxq : A2.length ≤ List.indexOf q A3 := by
    rw [ht3, List.indexOf_append_of_not_mem hqA2]
    exact Nat.le_add_right _ _
  have htake : ∀ x : String, x ∈ A3.take m →
      List.indexOf x (A3.take m) = List.indexOf x A3 := by
    intro x hx
    conv_rhs => rw [← List.take_append_drop m A3]
    rw [List.indexOf_append_of_mem hx]
  rw [htake p hp, htake q hq]
  exact lt_of_lt_of_le hidxp hidxq

/-- C5: whenever the output holds both a tier-1 match `p` and a path `q`
matching neither tier 1 nor tier 2 (a pure tier-3 selection), `p` precedes
`q`; and concretely, filtering the scenario input drops `node_modules/x.js`,
`package-lock.json` and `logo.png`, after which prioritization returns
exactly `["README.md", "src/main.py"]` in that order. -/
theorem claim_C5_tier_order :
    (∀ (paths : List String) (m : Nat) (p q : String),
        isKeyFile p = true → isKeyFile q = false → isCoreEntry q = false →
        p ∈ prioritize_files paths m → q ∈ prioritize_files paths m →
        List.indexOf p (prioritize_files paths m)
          < List.indexOf q (prioritize_files paths m)) ∧
    filter_paths ["README.md", "node_modules/x.js", "package-lock.json", "src/main.py",
        "logo.png"] = ["README.md", "src/main.py"] ∧
    prioritize_files ["README.md", "src/main.py"] 10 = ["README.md", "src/main.py"] := by
  refine ⟨?_, by decide, by decide⟩
  intro paths m p q hkp hkq hcq hp hq
  exact tier_order_core (sortPaths paths) m p q hkp hkq hcq hp hq

/-- C5 witness: with a pure tier-3 file alongside a README, the README comes
first in the selection. -/
theorem claim_C5_witness :
    List.indexOf "README.md" (prioritize_files ["src/utils/helpers.py", "README.md"] 10)
      < List.indexOf "src/utils/helpers.py"
          (prioritize_files ["src/utils/helpers.py", "README.md"] 10) :=
  claim_C5_tier_order.1 ["src/utils/helpers.py", "README.md"] 10 "README.md"
    "src/utils/helpers.py" (by decide) (by decide) (by decide) (by decide) (by decide)

/-- C9 counterexample: `paths.sort()` mutates the caller-owned list in place,
so after the call on `["b.py", "a.py"]` the caller's list is no longer in its
original order. -/
theorem claim_C9_counterexample :
    (prioritize_files_state ["b.py", "a.py"] 5).1 ≠ ["b.py", "a.py"] := by decide

/-- C9 (amended): `prioritize_files` performs no remote calls and its returned
selection is a pure function of its inputs, but its single side effect is the
in-place sort: after the call the caller-owned list holds the same elements
(a permutation of the original) rearranged into lexicographic order, rather
than being unchanged. -/
theorem claim_C9_amended (paths : List String) (m : Nat) :
    (prioritize_files_state paths m).1.Perm paths ∧
    List.Sorted pathLe (prioritize_files_state paths m).1 ∧
    (prioritize_files_state paths m).2 = prioritize_files paths m :=
  ⟨sortPaths_perm paths, sortPaths_sorted paths, rfl⟩

/-- C10: every selected path satisfies one of the three tier criteria — key
file name or `readme` in its final segment, entrypoint name at depth at most
3, or a recognized source extension — and paths matching none (such as
`notes.txt` and `docs/guide.rst`) are never selected even with budget left. -/
theorem claim_C10_tier_membership :
    (∀ (paths : List String) (m : Nat) (x : String), x ∈ prioritize_files paths m →
        isKeyFile x = true ∨ isCoreEntry x = true ∨ isSourceFile x = true) ∧
    prioritize_files ["docs/guide.rst", "notes.txt"] 5 = [] := by
  constructor
  · intro paths m x hx
    simp only [prioritize_files] at hx
    have hx3 := List.take_subset m _ hx
    rcases fillPass_mem hx3 with h2 | ⟨hs, _⟩
    · rcases selectPass_mem h2 with h1 | ⟨hc, _⟩
      · rcases selectPass_mem h1 with h0 | ⟨hk, _⟩
        · exact absurd h0 (List.not_mem_nil x)
        · exact Or.inl hk
      · exact Or.inr (Or.inl hc)
    · exact Or.inr (Or.inr hs)
  · decide

/-- C10 witness: a selected README satisfies a tier criterion. -/
theorem claim_C10_witness :
    isKeyFile "README.md" = true ∨ isCoreEntry "README.md" = true ∨
      isSourceFile "README.md" = true :=
  claim_C10_tier_membership.1 ["README.md"] 3 "README.md" (by decide)
